import Mathlib

/-!
# Verification of the rag-chatbot2 core utilities

Shallow embedding of the repository's deterministic core:

* `frontend/utils/cell.ts` — spreadsheet cell-reference parsing and
  formatting (`parseRowFromCell`, `parseColumnFromCell`,
  `createCellReference`, `isValidCellReference`, `parseCellReference`);
* `frontend/utils/gemini.ts` — the embedding provider wrapper
  (`assertApiKey`, `embedText`, `embedMany`), with the remote backend
  modelled as an oracle function;
* `lib/api.ts` — `resolveBackendBase`, the backend-URL validation;
* the Chunker component (its code lives in the Python backend, which is
  not part of the frontend sources; it is modelled from the spec).

JavaScript strings are modelled as `List Char` / `String`; the JS string
methods used by the code (`trim`, `toUpperCase`, `toLowerCase`, regular
expression prefix tests) are given explicit ASCII models below.
-/

deriving instance DecidableEq for Except

namespace RagChatbot

/-! ## Models of the JavaScript string primitives used by the code -/

/-- A whitespace character, as removed by JS `String.prototype.trim`
(ASCII fragment of the WhiteSpace/LineTerminator classes: space, tab,
LF, CR, VT, FF). -/
def wsChar (c : Char) : Bool :=
  c.toNat = 32 || c.toNat = 9 || c.toNat = 10 || c.toNat = 13 ||
    c.toNat = 11 || c.toNat = 12

/-- JS `trim`: remove leading and trailing whitespace. -/
def jsTrim (cs : List Char) : List Char :=
  ((cs.dropWhile wsChar).reverse.dropWhile wsChar).reverse

/-- JS `toUpperCase`, ASCII case (`a`–`z` is code points 97–122). -/
def jsToUpper (c : Char) : Char :=
  if 97 ≤ c.toNat && c.toNat ≤ 122 then Char.ofNat (c.toNat - 32) else c

/-- JS `toLowerCase`, ASCII case (`A`–`Z` is code points 65–90). -/
def jsToLower (c : Char) : Char :=
  if 65 ≤ c.toNat && c.toNat ≤ 90 then Char.ofNat (c.toNat + 32) else c

/-- `p` is a prefix of `s` (model of an anchored regex literal test). -/
def prefixOfCharList : List Char → List Char → Bool
  | [], _ => true
  | _ :: _, [] => false
  | p :: ps, c :: cs => p == c && prefixOfCharList ps cs

/-! ## `frontend/utils/cell.ts` -/

/-- The three distinct throw sites of `cell.ts` (distinguished in the
source by their messages), plus the argument check of
`createCellReference`. -/
inductive CellError where
  /-- `'セル参照が空または無効です'` — the `!cell` guard. -/
  | emptyCell : CellError
  /-- `'不正なセル参照形式です'` — the regex `/^([A-Z]+)(\d+)$/` failed. -/
  | invalidReference : CellError
  /-- `'行番号は1以上である必要があります'` — row parsed `< 1`. -/
  | invalidRow : CellError
  /-- `'行番号と列番号は1以上である必要があります'` — bad args to `createCellReference`. -/
  | invalidArgument : CellError
deriving DecidableEq, Repr

/-- An uppercase letter `A`–`Z` (the regex class `[A-Z]`, code points 65–90). -/
def isUpperAlpha (c : Char) : Bool := 65 ≤ c.toNat && c.toNat ≤ 90

/-- A decimal digit (the regex class `\d`, code points 48–57). -/
def isDigitChar (c : Char) : Bool := 48 ≤ c.toNat && c.toNat ≤ 57

/-- `cell.trim().toUpperCase()` — the normalization both parsers apply. -/
def normalizeCell (cell : String) : List Char :=
  (jsTrim cell.data).map jsToUpper

/-- The anchored match `normalized.match(/^([A-Z]+)(\d+)$/)`: returns the
two capture groups (letters, digits) when the whole string is one or more
letters followed by one or more digits. -/
def matchCellPattern (cs : List Char) : Option (List Char × List Char) :=
  let letters := cs.takeWhile isUpperAlpha
  let rest := cs.dropWhile isUpperAlpha
  if letters.isEmpty then none
  else if rest.isEmpty then none
  else if rest.all isDigitChar then some (letters, rest)
  else none

/-- `parseInt(rowString, 10)` on a digit string. -/
def digitsToNat (ds : List Char) : Nat :=
  ds.foldl (fun acc c => acc * 10 + (c.toNat - '0'.toNat)) 0

/-- `charCodeAt(i) - 'A'.charCodeAt(0) + 1`: `A ↦ 1 … Z ↦ 26`. -/
def letterValue (c : Char) : Nat := c.toNat - 'A'.toNat + 1

/-- The loop of `parseColumnFromCell`:
`columnNumber = columnNumber * 26 + charCode` over the letters. -/
def decodeLetters (letters : List Char) : Nat :=
  letters.foldl (fun acc c => acc * 26 + letterValue c) 0

/-- `parseRowFromCell` (`cell.ts` lines 12–37). The `isNaN` test of the
source can never fire on a string matched by `\d+` and is dropped. -/
def parseRowFromCell (cell : String) : Except CellError Nat :=
  if cell = "" then .error .emptyCell
  else
    match matchCellPattern (normalizeCell cell) with
    | none => .error .invalidReference
    | some (_, digits) =>
      let rowNumber := digitsToNat digits
      if rowNumber < 1 then .error .invalidRow
      else .ok rowNumber

/-- `parseColumnFromCell` (`cell.ts` lines 45–67). Note: it never
inspects the digit group beyond the regex match. -/
def parseColumnFromCell (cell : String) : Except CellError Nat :=
  if cell = "" then .error .emptyCell
  else
    match matchCellPattern (normalizeCell cell) with
    | none => .error .invalidReference
    | some (letters, _) => .ok (decodeLetters letters)

/-- The `while (tempColumn > 0)` loop of `createCellReference`: decrement,
prepend `'A' + tempColumn % 26`, divide by 26. -/
def columnLetters : Nat → List Char
  | 0 => []
  | n + 1 =>
    have : n / 26 < n + 1 := Nat.lt_succ_of_le (Nat.div_le_self n 26)
    columnLetters (n / 26) ++ [Char.ofNat ('A'.toNat + n % 26)]

/-- Decimal rendering of a natural number (the template `${row}`). -/
def natDigitsAux : Nat → List Char
  | 0 => []
  | n + 1 =>
    have : (n + 1) / 10 < n + 1 := Nat.div_lt_self (Nat.succ_pos n) (by omega)
    natDigitsAux ((n + 1) / 10) ++ [Char.ofNat ('0'.toNat + (n + 1) % 10)]

/-- `${row}` for a natural number. -/
def natDigits (n : Nat) : List Char :=
  if n = 0 then ['0'] else natDigitsAux n

/-- `createCellReference` (`cell.ts` lines 75–91). -/
def createCellReference (row column : Nat) : Except CellError String :=
  if row < 1 || column < 1 then .error .invalidArgument
  else .ok (String.mk (columnLetters column ++ natDigits row))

/-- `isValidCellReference` (`cell.ts` lines 98–106): `true` iff neither
parser throws (the row parser runs first). -/
def isValidCellReference (cell : String) : Bool :=
  match parseRowFromCell cell with
  | .error _ => false
  | .ok _ =>
    match parseColumnFromCell cell with
    | .error _ => false
    | .ok _ => true

/-- The `CellReference` interface of `cell.ts`. -/
structure CellReference where
  row : Nat
  column : Nat
  cellAddress : String
deriving DecidableEq, Repr

/-- `parseCellReference` (`cell.ts` lines 122–131). -/
def parseCellReference (cell : String) : Except CellError CellReference :=
  match parseRowFromCell cell with
  | .error e => .error e
  | .ok row =>
    match parseColumnFromCell cell with
    | .error e => .error e
    | .ok column =>
      .ok { row := row, column := column, cellAddress := String.mk (normalizeCell cell) }

/-! ## Lemmas about the JS string models -/

theorem toNat_ofNat_of_valid {n : Nat} (h : n.isValidChar) :
    (Char.ofNat n).toNat = n := by
  unfold Char.ofNat
  rw [dif_pos h]
  rfl

theorem isValidChar_of_small {n : Nat} (h : n < 128) : n.isValidChar :=
  Or.inl (by omega)

theorem wsChar_eq_false {c : Char} (h : 48 ≤ c.toNat) : wsChar c = false := by
  simp only [wsChar, Bool.or_eq_false_iff, decide_eq_false_iff_not]
  omega

theorem jsToUpper_fix {c : Char} (h : c.toNat ≤ 90) : jsToUpper c = c := by
  unfold jsToUpper
  rw [if_neg]
  simp only [Bool.and_eq_true, decide_eq_true_eq, not_and]
  omega

theorem dropWhile_eq_self_of_not {p : Char → Bool} {l : List Char}
    (h : ∀ c ∈ l, p c = false) : l.dropWhile p = l := by
  cases l with
  | nil => rfl
  | cons a t => simp [List.dropWhile, h a (by simp)]

theorem jsTrim_eq_self {l : List Char} (h : ∀ c ∈ l, wsChar c = false) :
    jsTrim l = l := by
  unfold jsTrim
  rw [dropWhile_eq_self_of_not h,
    dropWhile_eq_self_of_not (fun c hc => h c (List.mem_reverse.mp hc)),
    List.reverse_reverse]

theorem map_jsToUpper_fix {l : List Char} (h : ∀ c ∈ l, c.toNat ≤ 90) :
    l.map jsToUpper = l := by
  induction l with
  | nil => rfl
  | cons a t ih =>
    simp only [List.map_cons, jsToUpper_fix (h a (by simp))]
    rw [ih (fun c hc => h c (by simp [hc]))]

theorem normalizeCell_mk {l : List Char}
    (h : ∀ c ∈ l, 48 ≤ c.toNat ∧ c.toNat ≤ 90) :
    normalizeCell (String.mk l) = l := by
  unfold normalizeCell
  show (jsTrim l).map jsToUpper = l
  rw [jsTrim_eq_self (fun c hc => wsChar_eq_false (h c hc).1),
    map_jsToUpper_fix (fun c hc => (h c hc).2)]

theorem mk_ne_empty {a : Char} {l : List Char} : String.mk (a :: l) ≠ "" := by
  intro h
  have := congrArg String.data h
  simp at this

/-! ## Lemmas about the cell-reference arithmetic -/

theorem mem_columnLetters {n : Nat} {c : Char} (h : c ∈ columnLetters n) :
    65 ≤ c.toNat ∧ c.toNat ≤ 90 := by
  induction n using Nat.strong_induction_on with
  | _ n ih =>
    match n with
    | 0 => simp [columnLetters] at h
    | m + 1 =>
      rw [columnLetters] at h
      rcases List.mem_append.mp h with h1 | h1
      · exact ih (m / 26) (Nat.lt_succ_of_le (Nat.div_le_self m 26)) h1
      · have hm : m % 26 < 26 := Nat.mod_lt m (by omega)
        have hv : (65 + m % 26).isValidChar := isValidChar_of_small (by omega)
        simp only [List.mem_singleton] at h1
        subst h1
        rw [show ('A'.toNat : Nat) = 65 from rfl, toNat_ofNat_of_valid hv]
        omega

theorem columnLetters_ne_nil {n : Nat} (h : 1 ≤ n) : columnLetters n ≠ [] := by
  match n with
  | m + 1 =>
    rw [columnLetters]
    simp

theorem mem_natDigitsAux {n : Nat} {c : Char} (h : c ∈ natDigitsAux n) :
    48 ≤ c.toNat ∧ c.toNat ≤ 57 := by
  induction n using Nat.strong_induction_on with
  | _ n ih =>
    match n with
    | 0 => simp [natDigitsAux] at h
    | m + 1 =>
      rw [natDigitsAux] at h
      rcases List.mem_append.mp h with h1 | h1
      · exact ih ((m + 1) / 10) (Nat.div_lt_self (Nat.succ_pos m) (by omega)) h1
      · have hm : (m + 1) % 10 < 10 := Nat.mod_lt _ (by omega)
        have hv : (48 + (m + 1) % 10).isValidChar := isValidChar_of_small (by omega)
        simp only [List.mem_singleton] at h1
        subst h1
        rw [show ('0'.toNat : Nat) = 48 from rfl, toNat_ofNat_of_valid hv]
        omega

theorem mem_natDigits {n : Nat} {c : Char} (h : c ∈ natDigits n) :
    48 ≤ c.toNat ∧ c.toNat ≤ 57 := by
  unfold natDigits at h
  split at h
  · simp only [List.mem_singleton] at h
    subst h
    constructor <;> decide
  · exact mem_natDigitsAux h

theorem natDigits_ne_nil {n : Nat} : natDigits n ≠ [] := by
  unfold natDigits
  split
  · simp
  · match n with
    | m + 1 =>
      rw [natDigitsAux]
      simp

theorem decodeLetters_append_singleton {l : List Char} {c : Char} :
    decodeLetters (l ++ [c]) = decodeLetters l * 26 + letterValue c := by
  simp [decodeLetters, List.foldl_append]

theorem digitsToNat_append_singleton {l : List Char} {c : Char} :
    digitsToNat (l ++ [c]) = digitsToNat l * 10 + (c.toNat - '0'.toNat) := by
  simp [digitsToNat, List.foldl_append]

theorem decodeLetters_columnLetters (n : Nat) :
    decodeLetters (columnLetters n) = n := by
  induction n using Nat.strong_induction_on with
  | _ n ih =>
    match n with
    | 0 => simp [columnLetters, decodeLetters]
    | m + 1 =>
      rw [columnLetters, decodeLetters_append_singleton,
        ih (m / 26) (Nat.lt_succ_of_le (Nat.div_le_self m 26))]
      have hm : m % 26 < 26 := Nat.mod_lt m (by omega)
      have hv : (65 + m % 26).isValidChar := isValidChar_of_small (by omega)
      unfold letterValue
      rw [show ('A'.toNat : Nat) = 65 from rfl, toNat_ofNat_of_valid hv]
      omega

theorem digitsToNat_natDigitsAux (n : Nat) :
    digitsToNat (natDigitsAux n) = n := by
  induction n using Nat.strong_induction_on with
  | _ n ih =>
    match n with
    | 0 => simp [natDigitsAux, digitsToNat]
    | m + 1 =>
      rw [natDigitsAux, digitsToNat_append_singleton,
        ih ((m + 1) / 10) (Nat.div_lt_self (Nat.succ_pos m) (by omega))]
      have hm : (m + 1) % 10 < 10 := Nat.mod_lt _ (by omega)
      have hv : (48 + (m + 1) % 10).isValidChar := isValidChar_of_small (by omega)
      rw [show ('0'.toNat : Nat) = 48 from rfl, toNat_ofNat_of_valid hv]
      omega

theorem digitsToNat_natDigits (n : Nat) : digitsToNat (natDigits n) = n := by
  unfold natDigits
  split
  · subst ‹n = 0›
    rfl
  · exact digitsToNat_natDigitsAux n

/-! ## Lemmas about the anchored regex match -/

theorem isUpperAlpha_iff {c : Char} :
    isUpperAlpha c = true ↔ 65 ≤ c.toNat ∧ c.toNat ≤ 90 := by
  simp [isUpperAlpha]

theorem isDigitChar_iff {c : Char} :
    isDigitChar c = true ↔ 48 ≤ c.toNat ∧ c.toNat ≤ 57 := by
  simp [isDigitChar]

theorem not_upper_of_digit {c : Char} (h : isDigitChar c = true) :
    isUpperAlpha c = false := by
  rw [isDigitChar_iff] at h
  simp only [isUpperAlpha, Bool.and_eq_false_iff, decide_eq_false_iff_not]
  omega

theorem takeWhile_upper_of_digits {digits : List Char}
    (hd : ∀ c ∈ digits, isDigitChar c = true) :
    digits.takeWhile isUpperAlpha = [] := by
  cases digits with
  | nil => rfl
  | cons a t => simp [List.takeWhile, not_upper_of_digit (hd a (by simp))]

theorem takeWhile_split {letters digits : List Char}
    (hl : ∀ c ∈ letters, isUpperAlpha c = true)
    (hd : ∀ c ∈ digits, isDigitChar c = true) :
    (letters ++ digits).takeWhile isUpperAlpha = letters := by
  induction letters with
  | nil => simpa using takeWhile_upper_of_digits hd
  | cons a t ih =>
    simp only [List.cons_append, List.takeWhile_cons, hl a (by simp), if_true]
    rw [ih (fun c hc => hl c (by simp [hc]))]

theorem dropWhile_split {letters digits : List Char}
    (hl : ∀ c ∈ letters, isUpperAlpha c = true)
    (hd : ∀ c ∈ digits, isDigitChar c = true) :
    (letters ++ digits).dropWhile isUpperAlpha = digits := by
  have h := List.takeWhile_append_dropWhile (p := isUpperAlpha)
    (l := letters ++ digits)
  rw [takeWhile_split hl hd] at h
  exact List.append_cancel_left h

theorem matchCellPattern_split {letters digits : List Char}
    (hl0 : letters ≠ []) (hl : ∀ c ∈ letters, isUpperAlpha c = true)
    (hd0 : digits ≠ []) (hd : ∀ c ∈ digits, isDigitChar c = true) :
    matchCellPattern (letters ++ digits) = some (letters, digits) := by
  unfold matchCellPattern
  simp only [takeWhile_split hl hd, dropWhile_split hl hd]
  rw [if_neg (by simpa [List.isEmpty_iff] using hl0),
    if_neg (by simpa [List.isEmpty_iff] using hd0),
    if_pos (by simpa [List.all_eq_true] using hd)]

theorem matchCellPattern_some {cs letters digits : List Char}
    (h : matchCellPattern cs = some (letters, digits)) :
    cs = letters ++ digits ∧ letters ≠ [] ∧ digits ≠ [] ∧
      (∀ c ∈ letters, isUpperAlpha c = true) ∧
      (∀ c ∈ digits, isDigitChar c = true) := by
  unfold matchCellPattern at h
  simp only at h
  split at h
  · exact absurd h (by simp)
  · split at h
    · exact absurd h (by simp)
    · split at h
      · rw [Option.some_inj, Prod.mk.injEq] at h
        obtain ⟨hlet, hdig⟩ := h
        subst hlet
        subst hdig
        refine ⟨(List.takeWhile_append_dropWhile ..).symm, ?_, ?_, ?_, ?_⟩
        · simpa [List.isEmpty_iff] using ‹¬(cs.takeWhile isUpperAlpha).isEmpty = true›
        · simpa [List.isEmpty_iff] using ‹¬(cs.dropWhile isUpperAlpha).isEmpty = true›
        · exact fun c hc => List.mem_takeWhile_imp hc
        · simpa [List.all_eq_true] using ‹(cs.dropWhile isUpperAlpha).all isDigitChar = true›
      · exact absurd h (by simp)

/-! ## Round-trip lemmas -/

theorem createCellReference_ok {row col : Nat} (hr : 1 ≤ row) (hc : 1 ≤ col) :
    createCellReference row col =
      .ok (String.mk (columnLetters col ++ natDigits row)) := by
  unfold createCellReference
  rw [if_neg]
  simp only [Bool.or_eq_true, decide_eq_true_eq, not_or]
  omega

theorem parse_createCellReference {row col : Nat} (hr : 1 ≤ row) (hc : 1 ≤ col) :
    parseRowFromCell (String.mk (columnLetters col ++ natDigits row)) = .ok row ∧
    parseColumnFromCell (String.mk (columnLetters col ++ natDigits row)) = .ok col := by
  have hchars : ∀ c ∈ columnLetters col ++ natDigits row,
      48 ≤ c.toNat ∧ c.toNat ≤ 90 := by
    intro c hcmem
    rcases List.mem_append.mp hcmem with h1 | h1
    · have := mem_columnLetters h1
      omega
    · have := mem_natDigits h1
      omega
  have hne : String.mk (columnLetters col ++ natDigits row) ≠ "" := by
    cases h : columnLetters col ++ natDigits row with
    | nil => exact absurd (List.append_eq_nil.mp h).1 (columnLetters_ne_nil hc)
    | cons a t => exact mk_ne_empty
  have hnorm : normalizeCell (String.mk (columnLetters col ++ natDigits row)) =
      columnLetters col ++ natDigits row := normalizeCell_mk hchars
  have hmatch : matchCellPattern (columnLetters col ++ natDigits row) =
      some (columnLetters col, natDigits row) :=
    matchCellPattern_split (columnLetters_ne_nil hc)
      (fun c hcm => isUpperAlpha_iff.mpr (mem_columnLetters hcm))
      natDigits_ne_nil
      (fun c hcm => isDigitChar_iff.mpr (mem_natDigits hcm))
  constructor
  · unfold parseRowFromCell
    rw [if_neg hne, hnorm, hmatch]
    simp only [digitsToNat_natDigits]
    rw [if_neg (by omega)]
  · unfold parseColumnFromCell
    rw [if_neg hne, hnorm, hmatch]
    simp [decodeLetters_columnLetters]

end RagChatbot

namespace RagChatbot

/-! ## Claim C1: format/parse round-trip -/

/-- C1: for every row in [1,10000] and column in [1,702], parsing the
cell reference produced by `createCellReference` round-trips
(`parseRowFromCell` recovers the row, `parseColumnFromCell` the column);
in particular `createCellReference 2 1 = "A2"`,
`createCellReference 10 27 = "AA10"`, `createCellReference 100 702 = "ZZ100"`. -/
theorem cell_roundTrip_C1 :
    (∀ row col : Nat, 1 ≤ row → row ≤ 10000 → 1 ≤ col → col ≤ 702 →
      ∃ s : String, createCellReference row col = .ok s ∧
        parseRowFromCell s = .ok row ∧ parseColumnFromCell s = .ok col) ∧
    createCellReference 2 1 = .ok "A2" ∧
    createCellReference 10 27 = .ok "AA10" ∧
    createCellReference 100 702 = .ok "ZZ100" := by
  refine ⟨?_, ?_, ?_, ?_⟩
  · intro row col hr _ hc _
    exact ⟨_, createCellReference_ok hr hc,
      (parse_createCellReference hr hc).1, (parse_createCellReference hr hc).2⟩
  · simp [createCellReference, columnLetters, natDigits, natDigitsAux]
  · simp [createCellReference, columnLetters, natDigits, natDigitsAux]
  · simp [createCellReference, columnLetters, natDigits, natDigitsAux]

/-- Witness for C1 at row 3, column 28 (`"AB3"`). -/
theorem cell_roundTrip_C1_witness :
    ∃ s : String, createCellReference 3 28 = .ok s ∧
      parseRowFromCell s = .ok 3 ∧ parseColumnFromCell s = .ok 28 :=
  cell_roundTrip_C1.1 3 28 (by decide) (by decide) (by decide) (by decide)

/-! ## Claim C4: rejection of malformed references -/

/-- C4: every input whose trimmed, uppercased form fails the
letters-then-digits grammar makes both `parseRowFromCell` and
`parseColumnFromCell` fail, and a grammatical input whose digit part
denotes 0 makes `parseRowFromCell` fail; in particular `"2A"`, `""`,
`"A0"` and `"A-1"` are all rejected. -/
theorem cell_reject_C4 :
    (∀ s : String, matchCellPattern (normalizeCell s) = none →
      (parseRowFromCell s).isOk = false ∧ (parseColumnFromCell s).isOk = false) ∧
    (∀ (s : String) (letters digits : List Char),
      matchCellPattern (normalizeCell s) = some (letters, digits) →
      digitsToNat digits = 0 → (parseRowFromCell s).isOk = false) ∧
    (parseRowFromCell "2A").isOk = false ∧ (parseRowFromCell "").isOk = false ∧
    (parseRowFromCell "A0").isOk = false ∧ (parseRowFromCell "A-1").isOk = false := by
  refine ⟨?_, ?_, by decide, by decide, by decide, by decide⟩
  · intro s hm
    by_cases hs : s = ""
    · subst hs
      decide
    · unfold parseRowFromCell parseColumnFromCell
      rw [if_neg hs, if_neg hs, hm]
      exact ⟨rfl, rfl⟩
  · intro s letters digits hm hz
    by_cases hs : s = ""
    · subst hs
      decide
    · unfold parseRowFromCell
      rw [if_neg hs, hm]
      simp [hz, Except.isOk, Except.toBool]

/-- Witness for C4 at `"2A"` (grammar failure) and `"A0"` (zero row). -/
theorem cell_reject_C4_witness :
    (parseRowFromCell "2A").isOk = false ∧
    (parseColumnFromCell "2A").isOk = false ∧
    (parseRowFromCell "A00").isOk = false :=
  ⟨(cell_reject_C4.1 "2A" (by decide)).1, (cell_reject_C4.1 "2A" (by decide)).2,
    cell_reject_C4.2.1 "A00" ['A'] ['0', '0'] (by decide) (by decide)⟩

/-! ## Claim C5: the two failure kinds -/

/-- C5 counterexample: the empty string fails the grammar, yet
`parseRowFromCell` rejects it with the distinct empty-reference error,
not with the invalid-reference (grammar) error. -/
theorem cell_errorKinds_C5_counterexample :
    matchCellPattern (normalizeCell "") = none ∧
    parseRowFromCell "" = .error .emptyCell ∧
    CellError.emptyCell ≠ CellError.invalidReference := by
  refine ⟨by decide, by decide, by decide⟩

/-- C5 (amended): every NON-EMPTY input failing the letters-then-digits
grammar is rejected with `invalidReference`; the empty string is rejected
with the distinct `emptyCell` error; a grammatical input whose row part is
less than 1 is rejected with the distinct `invalidRow` error; all three
error kinds are pairwise distinct. -/
theorem cell_errorKinds_C5 :
    (∀ s : String, s ≠ "" → matchCellPattern (normalizeCell s) = none →
      parseRowFromCell s = .error .invalidReference ∧
      parseColumnFromCell s = .error .invalidReference) ∧
    parseRowFromCell "" = .error .emptyCell ∧
    (∀ (s : String) (letters digits : List Char),
      matchCellPattern (normalizeCell s) = some (letters, digits) →
      digitsToNat digits < 1 → parseRowFromCell s = .error .invalidRow) ∧
    CellError.invalidReference ≠ CellError.invalidRow ∧
    CellError.emptyCell ≠ CellError.invalidReference ∧
    CellError.emptyCell ≠ CellError.invalidRow := by
  refine ⟨?_, by decide, ?_, by decide, by decide, by decide⟩
  · intro s hs hm
    unfold parseRowFromCell parseColumnFromCell
    rw [if_neg hs, if_neg hs, hm]
    exact ⟨rfl, rfl⟩
  · intro s letters digits hm hz
    have hs : s ≠ "" := by
      intro h
      subst h
      exact absurd (show matchCellPattern (normalizeCell "") = none by decide)
        (by simp [hm])
    unfold parseRowFromCell
    rw [if_neg hs, hm]
    simp [hz]

/-- Witness for C5 at `"2A"` (invalid reference) and `"A0"` (invalid row). -/
theorem cell_errorKinds_C5_witness :
    parseRowFromCell "2A" = .error .invalidReference ∧
    parseColumnFromCell "2A" = .error .invalidReference ∧
    parseRowFromCell "A0" = .error .invalidRow :=
  ⟨(cell_errorKinds_C5.1 "2A" (by decide) (by decide)).1,
    (cell_errorKinds_C5.1 "2A" (by decide) (by decide)).2,
    cell_errorKinds_C5.2.2.1 "A0" ['A'] ['0'] (by decide) (by decide)⟩

/-! ## Claim C9: `isValidCellReference` decides parseability -/

/-- C9: `isValidCellReference` is a total Boolean predicate returning
`true` exactly when both `parseRowFromCell` and `parseColumnFromCell`
succeed, which is also exactly when `parseCellReference` succeeds. -/
theorem cell_isValid_C9 : ∀ s : String,
    (isValidCellReference s = true ↔
      (parseRowFromCell s).isOk = true ∧ (parseColumnFromCell s).isOk = true) ∧
    (parseCellReference s).isOk = isValidCellReference s := by
  intro s
  unfold isValidCellReference parseCellReference
  cases parseRowFromCell s <;> cases parseColumnFromCell s <;>
    simp [Except.isOk, Except.toBool]

/-! ## Claim C3: bijective base-26 -/

/-- The spec's decoding formula (§4.1): for letters `L1…Ln`,
`column = Σ letterValue_i × 26^(n-i)` — each letter contributes its value
times 26 to the power of the number of letters after it. -/
def specColumnValue : List Char → Nat
  | [] => 0
  | c :: rest => letterValue c * 26 ^ rest.length + specColumnValue rest

/-- The spec's encoding loop (§4.1), lowest-order letter first: take
`(col-1) mod 26` as the next letter, set `col := (col-1) div 26`, stop at
`col = 0`; the caller reverses the result. -/
def specEncodeDigits : Nat → List Char
  | 0 => []
  | n + 1 =>
    have : n / 26 < n + 1 := Nat.lt_succ_of_le (Nat.div_le_self n 26)
    Char.ofNat ('A'.toNat + n % 26) :: specEncodeDigits (n / 26)

theorem foldl_decode (l : List Char) (a : Nat) :
    l.foldl (fun acc c => acc * 26 + letterValue c) a =
      a * 26 ^ l.length + specColumnValue l := by
  induction l generalizing a with
  | nil => simp [specColumnValue]
  | cons c t ih =>
    simp only [List.foldl_cons, specColumnValue, List.length_cons, ih]
    ring

theorem decodeLetters_eq_spec (l : List Char) :
    decodeLetters l = specColumnValue l := by
  unfold decodeLetters
  rw [foldl_decode]
  simp

theorem columnLetters_eq_spec (n : Nat) :
    columnLetters n = (specEncodeDigits n).reverse := by
  induction n using Nat.strong_induction_on with
  | _ n ih =>
    match n with
    | 0 => simp [columnLetters, specEncodeDigits]
    | m + 1 =>
      rw [columnLetters, specEncodeDigits, List.reverse_cons,
        ih (m / 26) (Nat.lt_succ_of_le (Nat.div_le_self m 26))]

/-- C3: column letters decode as bijective base-26
(`parseColumnFromCell` returns `Σ letterValue_i × 26^(n-i)` on every
grammatical reference, with `letterValue 'A' = 1`, `letterValue 'Z' = 26`),
and `createCellReference` encodes by the inverse division loop of the
spec (letters produced lowest-order first, then reversed). -/
theorem cell_base26_C3 :
    letterValue 'A' = 1 ∧ letterValue 'Z' = 26 ∧
    (∀ (s : String) (letters digits : List Char),
      matchCellPattern (normalizeCell s) = some (letters, digits) →
      parseColumnFromCell s = .ok (specColumnValue letters)) ∧
    (∀ col : Nat, columnLetters col = (specEncodeDigits col).reverse) ∧
    (∀ row col : Nat, 1 ≤ row → 1 ≤ col →
      createCellReference row col =
        .ok (String.mk ((specEncodeDigits col).reverse ++ natDigits row))) := by
  refine ⟨by decide, by decide, ?_, columnLetters_eq_spec, ?_⟩
  · intro s letters digits hm
    have hs : s ≠ "" := by
      intro h
      subst h
      exact absurd (show matchCellPattern (normalizeCell "") = none by decide)
        (by simp [hm])
    unfold parseColumnFromCell
    rw [if_neg hs, hm]
    simp [decodeLetters_eq_spec]
  · intro row col hr hc
    rw [createCellReference_ok hr hc, ← columnLetters_eq_spec]

/-- Witness for C3 at `"AB7"` and at row 2, column 1. -/
theorem cell_base26_C3_witness :
    parseColumnFromCell "AB7" = .ok (specColumnValue ['A', 'B']) ∧
    createCellReference 2 1 =
      .ok (String.mk ((specEncodeDigits 1).reverse ++ natDigits 2)) :=
  ⟨cell_base26_C3.2.2.1 "AB7" ['A', 'B'] ['7'] (by decide),
    cell_base26_C3.2.2.2.2 2 1 (by decide) (by decide)⟩

/-! ## Claim C2: parse-then-format reproduces the normalized input -/

theorem le_foldl26 (l : List Char) (a : Nat) :
    a ≤ l.foldl (fun acc c => acc * 26 + letterValue c) a := by
  induction l generalizing a with
  | nil => exact le_refl a
  | cons c t ih =>
    simp only [List.foldl_cons]
    exact le_trans (by omega) (ih (a * 26 + letterValue c))

theorem letterValue_pos (c : Char) : 1 ≤ letterValue c := by
  unfold letterValue
  omega

theorem decodeLetters_pos {l : List Char} (h0 : l ≠ []) :
    1 ≤ decodeLetters l := by
  cases l with
  | nil => exact absurd rfl h0
  | cons c t =>
    unfold decodeLetters
    simp only [List.foldl_cons]
    exact le_trans (by have := letterValue_pos c; omega) (le_foldl26 t _)

theorem columnLetters_decodeLetters {l : List Char}
    (h : ∀ c ∈ l, isUpperAlpha c = true) :
    columnLetters (decodeLetters l) = l := by
  induction l using List.reverseRecOn with
  | nil => simp [decodeLetters, columnLetters]
  | append_singleton l c ih =>
    rw [decodeLetters_append_singleton]
    have hc := isUpperAlpha_iff.mp (h c (by simp))
    have hv1 := letterValue_pos c
    have hv26 : letterValue c ≤ 26 := by
      unfold letterValue
      rw [show ('A'.toNat : Nat) = 65 from rfl]
      omega
    rw [show decodeLetters l * 26 + letterValue c =
      (decodeLetters l * 26 + (letterValue c - 1)) + 1 from by omega]
    rw [columnLetters]
    have h1 : (decodeLetters l * 26 + (letterValue c - 1)) / 26 =
        decodeLetters l := by omega
    have h2 : (decodeLetters l * 26 + (letterValue c - 1)) % 26 =
        letterValue c - 1 := by omega
    rw [h1, h2, ih (fun x hx => h x (by simp [hx]))]
    have h3 : 'A'.toNat + (letterValue c - 1) = c.toNat := by
      unfold letterValue
      rw [show ('A'.toNat : Nat) = 65 from rfl] at *
      omega
    rw [h3, Char.ofNat_toNat]

theorem le_foldl10 (l : List Char) (a : Nat) :
    a ≤ l.foldl (fun acc c => acc * 10 + (c.toNat - '0'.toNat)) a := by
  induction l generalizing a with
  | nil => exact le_refl a
  | cons c t ih =>
    simp only [List.foldl_cons]
    exact le_trans (by omega) (ih _)

theorem char_eq_of_toNat {c d : Char} (h : c.toNat = d.toNat) : c = d := by
  have := congrArg Char.ofNat h
  rwa [Char.ofNat_toNat, Char.ofNat_toNat] at this

theorem digitsToNat_pos {a : Char} {t : List Char} (ha : a ≠ '0')
    (had : isDigitChar a = true) : 1 ≤ digitsToNat (a :: t) := by
  have hd := isDigitChar_iff.mp had
  have hne : a.toNat ≠ 48 := by
    intro h
    exact ha (char_eq_of_toNat (by rw [h]; rfl))
  unfold digitsToNat
  simp only [List.foldl_cons]
  refine le_trans ?_ (le_foldl10 t _)
  rw [show ('0'.toNat : Nat) = 48 from rfl]
  omega

theorem natDigitsAux_digitsToNat {l : List Char}
    (h : ∀ c ∈ l, isDigitChar c = true) (hz : l.head? ≠ some '0') :
    natDigitsAux (digitsToNat l) = l := by
  induction l using List.reverseRecOn with
  | nil => simp [digitsToNat, natDigitsAux]
  | append_singleton l c ih =>
    rw [digitsToNat_append_singleton]
    have hcd := isDigitChar_iff.mp (h c (by simp))
    have hv9 : c.toNat - '0'.toNat ≤ 9 := by
      rw [show ('0'.toNat : Nat) = 48 from rfl]
      omega
    have hchar : '0'.toNat + (c.toNat - '0'.toNat) = c.toNat := by
      rw [show ('0'.toNat : Nat) = 48 from rfl]
      omega
    cases l with
    | nil =>
      have hc0 : c ≠ '0' := by simpa using hz
      have hv1 : 1 ≤ c.toNat - '0'.toNat := by
        have : c.toNat ≠ 48 := fun h48 => hc0 (char_eq_of_toNat (by rw [h48]; rfl))
        rw [show ('0'.toNat : Nat) = 48 from rfl]
        omega
      simp only [digitsToNat, List.foldl_nil, List.nil_append, Nat.zero_mul,
        Nat.zero_add]
      rw [show c.toNat - '0'.toNat = (c.toNat - '0'.toNat - 1) + 1 from by omega,
        natDigitsAux]
      rw [show (c.toNat - '0'.toNat - 1 + 1) / 10 = 0 from by omega]
      rw [show (c.toNat - '0'.toNat - 1 + 1) % 10 = c.toNat - '0'.toNat from by omega]
      rw [show natDigitsAux 0 = [] from by simp [natDigitsAux]]
      rw [hchar, Char.ofNat_toNat]
      simp
    | cons a t =>
      have ha : a ≠ '0' := by simpa using hz
      have hm1 : 1 ≤ digitsToNat (a :: t) := digitsToNat_pos ha (h a (by simp))
      rw [show digitsToNat (a :: t) * 10 + (c.toNat - '0'.toNat) =
        (digitsToNat (a :: t) * 10 + (c.toNat - '0'.toNat) - 1) + 1 from by omega,
        natDigitsAux]
      rw [show (digitsToNat (a :: t) * 10 + (c.toNat - '0'.toNat) - 1 + 1) / 10 =
        digitsToNat (a :: t) from by omega]
      rw [show (digitsToNat (a :: t) * 10 + (c.toNat - '0'.toNat) - 1 + 1) % 10 =
        c.toNat - '0'.toNat from by omega]
      rw [ih (fun x hx => h x (by simp at hx ⊢; tauto)) (by simpa using ha)]
      rw [hchar, Char.ofNat_toNat]

/-- C2 counterexample: `"A02"` is accepted by the parser
(row 2, column 1), but re-formatting the parsed parts yields `"A2"`,
not the normalized input `"A02"`. -/
theorem cell_parseFormat_C2_counterexample :
    parseCellReference "A02" =
      .ok { row := 2, column := 1, cellAddress := "A02" } ∧
    createCellReference 2 1 = .ok "A2" ∧
    ("A2" : String) ≠ "A02" := by
  refine ⟨by decide, ?_, by decide⟩
  simp [createCellReference, columnLetters, natDigits, natDigitsAux]

/-- C2 (amended): for every string accepted by the parser WHOSE DIGIT
PART HAS NO LEADING ZERO, re-formatting the parsed row and column
reproduces the trimmed, uppercased input
(`createCellReference r.row r.column = .ok r.cellAddress`). -/
theorem cell_parseFormat_C2 :
    ∀ (s : String) (letters digits : List Char) (r : CellReference),
      matchCellPattern (normalizeCell s) = some (letters, digits) →
      digits.head? ≠ some '0' →
      parseCellReference s = .ok r →
      createCellReference r.row r.column = .ok r.cellAddress := by
  intro s letters digits r hm hz hp
  obtain ⟨hsplit, hl0, hd0, hlup, hdd⟩ := matchCellPattern_some hm
  have hs : s ≠ "" := by
    intro h
    subst h
    exact absurd (show matchCellPattern (normalizeCell "") = none by decide)
      (by simp [hm])
  by_cases hlt : digitsToNat digits < 1
  · have hrow : parseRowFromCell s = .error .invalidRow := by
      unfold parseRowFromCell
      rw [if_neg hs, hm]
      simp [hlt]
    unfold parseCellReference at hp
    rw [hrow] at hp
    exact absurd hp (by simp)
  · have hrow : parseRowFromCell s = .ok (digitsToNat digits) := by
      unfold parseRowFromCell
      rw [if_neg hs, hm]
      simp [hlt]
    have hcol : parseColumnFromCell s = .ok (decodeLetters letters) := by
      unfold parseColumnFromCell
      rw [if_neg hs, hm]
    unfold parseCellReference at hp
    rw [hrow, hcol] at hp
    simp only [Except.ok.injEq] at hp
    subst hp
    have hr1 : 1 ≤ digitsToNat digits := by omega
    have hc1 : 1 ≤ decodeLetters letters := decodeLetters_pos hl0
    show createCellReference (digitsToNat digits) (decodeLetters letters) =
      .ok (String.mk (normalizeCell s))
    rw [createCellReference_ok hr1 hc1]
    rw [columnLetters_decodeLetters hlup]
    unfold natDigits
    rw [if_neg (by omega), natDigitsAux_digitsToNat hdd hz, hsplit]

/-- Witness for C2 at `" a2 "`-style input `"a2 "`: parsing succeeds and
re-formatting gives the normalized `"A2"`. -/
theorem cell_parseFormat_C2_witness :
    createCellReference 2 1 = .ok "A2" :=
  cell_parseFormat_C2 "a2 " ['A'] ['2']
    { row := 2, column := 1, cellAddress := "A2" }
    (by decide) (by decide) (by decide)

/-! ## `frontend/utils/gemini.ts`

`embedText` calls the Gemini SDK; the network call is modelled by an
oracle `backend : String → Option (List ℚ)` giving, for each input text,
the embedding array extracted from the response
(`result?.embedding?.values`), or `none` when the response carries no
well-formed array. JS `number[]` values are modelled as `List ℚ`
(no arithmetic is ever performed on them). An exception thrown by the
SDK call itself would propagate — it is not thrown by `embedText` — so
the oracle models only the two outcomes `embedText` itself inspects. -/

/-- The two throw sites of `gemini.ts`. -/
inductive EmbedError where
  /-- `"Gemini API key is missing. …"` — thrown by `assertApiKey`. -/
  | missingKey : EmbedError
  /-- `"Embedding response was invalid"` — no well-formed `values` array. -/
  | invalidResponse : EmbedError
deriving DecidableEq, Repr

/-- `assertApiKey` (`gemini.ts` lines 8–13): the key is JS-falsy when the
environment variable is absent or the empty string. -/
def assertApiKey (apiKey : Option String) : Except EmbedError String :=
  match apiKey with
  | none => .error .missingKey
  | some k => if k = "" then .error .missingKey else .ok k

/-- `embedText` (`gemini.ts` lines 15–27). -/
def embedText (apiKey : Option String) (backend : String → Option (List ℚ))
    (text : String) : Except EmbedError (List ℚ) :=
  match assertApiKey apiKey with
  | .error e => .error e
  | .ok _ =>
    match backend text with
    | none => .error .invalidResponse
    | some values => .ok values

/-- `embedMany` (`gemini.ts` lines 29–35): a sequential loop pushing each
`embedText` result; the first failure aborts the loop. -/
def embedMany (apiKey : Option String) (backend : String → Option (List ℚ)) :
    List String → Except EmbedError (List (List ℚ))
  | [] => .ok []
  | t :: rest =>
    match embedText apiKey backend t with
    | .error e => .error e
    | .ok v =>
      match embedMany apiKey backend rest with
      | .error e => .error e
      | .ok vs => .ok (v :: vs)

/-! ## Claim C6: `embedMany` preserves order and arity -/

/-- C6: whenever every individual `embedText` call succeeds, `embedMany`
returns the list of those embeddings in input order — the result is
`texts.map f` for the per-text embedding `f`, hence has the same length
as the input and its i-th element is the embedding of the i-th text. -/
theorem embedMany_order_C6 :
    ∀ (apiKey : Option String) (backend : String → Option (List ℚ))
      (texts : List String) (f : String → List ℚ),
      (∀ t ∈ texts, embedText apiKey backend t = .ok (f t)) →
      embedMany apiKey backend texts = .ok (texts.map f) ∧
      (texts.map f).length = texts.length := by
  intro apiKey backend texts f h
  refine ⟨?_, List.length_map texts f⟩
  induction texts with
  | nil => rfl
  | cons t rest ih =>
    unfold embedMany
    rw [h t (by simp), ih (fun x hx => h x (by simp [hx]))]
    rfl

/-- Witness for C6 on two texts with distinct embeddings. -/
theorem embedMany_order_C6_witness :
    embedMany (some "key") (fun t => some [(t.length : ℚ)]) ["a", "bb"] =
      .ok (["a", "bb"].map fun t => [(t.length : ℚ)]) ∧
    ((["a", "bb"] : List String).map fun t => [(t.length : ℚ)]).length =
      (["a", "bb"] : List String).length :=
  embedMany_order_C6 (some "key") (fun t => some [(t.length : ℚ)])
    ["a", "bb"] (fun t => [(t.length : ℚ)])
    (by decide)

/-! ## Claim C7: the two embedding failure kinds -/

/-- C7: with a JS-falsy key (absent or empty) `embedText` fails with the
missing-key error regardless of the backend (the key is checked before
any backend call); with a truthy key it fails with the distinct
invalid-response error exactly when the response carries no well-formed
array, and succeeds otherwise — `embedText` itself throws in no other
case. -/
theorem embedText_errors_C7 :
    ∀ (apiKey : Option String) (backend : String → Option (List ℚ))
      (text : String),
      ((apiKey = none ∨ apiKey = some "") →
        embedText apiKey backend text = .error .missingKey) ∧
      (∀ k, apiKey = some k → k ≠ "" → backend text = none →
        embedText apiKey backend text = .error .invalidResponse) ∧
      (∀ k v, apiKey = some k → k ≠ "" → backend text = some v →
        embedText apiKey backend text = .ok v) ∧
      EmbedError.missingKey ≠ EmbedError.invalidResponse := by
  intro apiKey backend text
  refine ⟨?_, ?_, ?_, by decide⟩
  · rintro (rfl | rfl)
    · rfl
    · rfl
  · rintro k rfl hk hb
    simp [embedText, assertApiKey, hk, hb]
  · rintro k v rfl hk hb
    simp [embedText, assertApiKey, hk, hb]

/-- Witness for C7: the three outcomes at concrete inputs. -/
theorem embedText_errors_C7_witness :
    embedText none (fun _ => some [1]) "x" = .error .missingKey ∧
    embedText (some "k") (fun _ => none) "x" = .error .invalidResponse ∧
    embedText (some "k") (fun _ => some [2]) "x" = .ok [2] :=
  ⟨(embedText_errors_C7 none (fun _ => some [1]) "x").1 (Or.inl rfl),
    (embedText_errors_C7 (some "k") (fun _ => none) "x").2.1 "k" rfl
      (by decide) rfl,
    (embedText_errors_C7 (some "k") (fun _ => some [2]) "x").2.2.1 "k" [2] rfl
      (by decide) rfl⟩

/-! ## The Chunker (spec §4.2) -/

/-- Modelled from the spec: the Chunker component (§4.2). Its code lives
in the Python backend (`rag_service.py`), which is not among the
available sources; `split(text, chunkSize, overlap)` is modelled from the
spec's words: fixed-size segments of `chunkSize` characters, consecutive
chunks sharing `overlap` characters (so each step advances by
`chunkSize - overlap`), empty text yields zero chunks, text not longer
than `chunkSize` yields exactly one chunk. Outside the spec's invariant
`overlap < chunkSize` the model yields no chunks. -/
def splitChunks (chunkSize overlap : Nat) (text : List Char) :
    List (List Char) :=
  if chunkSize ≤ overlap then []
  else if text = [] then []
  else if text.length ≤ chunkSize then [text]
  else
    text.take chunkSize ::
      splitChunks chunkSize overlap (text.drop (chunkSize - overlap))
termination_by text.length
decreasing_by
  simp only [List.length_drop]
  omega

/-- Modelled from the spec: "concatenating chunk texts (removing
overlaps)" — the first chunk whole, every later chunk with its first
`overlap` characters removed. -/
def joinChunks (overlap : Nat) : List (List Char) → List Char
  | [] => []
  | c :: rest => c ++ (rest.map (fun x => x.drop overlap)).flatten

theorem splitChunks_nil {S O : Nat} : splitChunks S O [] = [] := by
  unfold splitChunks
  split
  · rfl
  · rw [if_pos rfl]

theorem splitChunks_short {S O : Nat} {text : List Char} (hso : O < S)
    (h0 : text ≠ []) (h1 : text.length ≤ S) :
    splitChunks S O text = [text] := by
  unfold splitChunks
  rw [if_neg (by omega), if_neg h0, if_pos h1]

theorem splitChunks_long {S O : Nat} {text : List Char} (hso : O < S)
    (h1 : S < text.length) :
    splitChunks S O text =
      text.take S :: splitChunks S O (text.drop (S - O)) := by
  have h0 : text ≠ [] := by
    intro h
    subst h
    simp at h1
  conv_lhs => rw [splitChunks]
  rw [if_neg (by omega), if_neg h0, if_neg (by omega)]

theorem join_drop_splitChunks {S O : Nat} (hso : O < S) :
    ∀ (n : Nat) (text : List Char), text.length ≤ n →
      ((splitChunks S O text).map (fun x => x.drop O)).flatten = text.drop O := by
  intro n
  induction n with
  | zero =>
    intro text hlen
    have : text = [] := List.length_eq_zero.mp (Nat.le_zero.mp hlen)
    subst this
    simp [splitChunks_nil]
  | succ n ih =>
    intro text hlen
    by_cases h0 : text = []
    · subst h0
      simp [splitChunks_nil]
    · by_cases h1 : text.length ≤ S
      · rw [splitChunks_short hso h0 h1]
        simp
      · rw [splitChunks_long hso (by omega)]
        have hstep : 1 ≤ S - O := by omega
        have hlt : (text.drop (S - O)).length ≤ n := by
          simp only [List.length_drop]
          have : text.length ≠ 0 := by
            simpa using fun h => h0 (List.length_eq_zero.mp h)
          omega
        simp only [List.map_cons, List.flatten_cons, ih (text.drop (S - O)) hlt]
        rw [List.drop_take, List.drop_drop]
        have hSO : S - O + O = S := by omega
        have h2 : O + (S - O) = S := by omega
        rw [hSO]
        conv_rhs => rw [← List.take_append_drop (S - O) (text.drop O)]
        rw [List.drop_drop, h2]

theorem splitChunks_length {S O : Nat} (hso : O < S) :
    ∀ (n : Nat) (text : List Char), text.length ≤ n → S < text.length →
      (splitChunks S O text).length = (text.length - O - 1) / (S - O) + 1 := by
  intro n
  induction n with
  | zero =>
    intro text hlen hS
    omega
  | succ n ih =>
    intro text hlen hS
    rw [splitChunks_long hso hS]
    simp only [List.length_cons]
    by_cases h2 : (text.drop (S - O)).length ≤ S
    · have hd0 : text.drop (S - O) ≠ [] := by
        intro h
        have := congrArg List.length h
        simp only [List.length_drop, List.length_nil] at this
        omega
      rw [splitChunks_short hso hd0 h2]
      simp only [List.length_drop] at h2
      have hdiv : (text.length - O - 1) / (S - O) = 1 :=
        Nat.div_eq_of_lt_le (by omega) (by omega)
      simp [hdiv]
    · simp only [List.length_drop, not_le] at h2
      have hS2 : S < (text.drop (S - O)).length := by
        simp only [List.length_drop]
        omega
      have hlen2 : (text.drop (S - O)).length ≤ n := by
        simp only [List.length_drop]
        omega
      rw [ih (text.drop (S - O)) hlen2 hS2]
      simp only [List.length_drop]
      have hge : S - O ≤ text.length - O - 1 := by omega
      rw [Nat.div_eq_sub_div (by omega) hge,
        show text.length - O - 1 - (S - O) = text.length - (S - O) - O - 1
          from by omega]

/-! ## Claim C8: chunk coverage and counts -/

/-- C8 (spec-modelled): for `overlap < chunkSize`, concatenating the
chunk texts with overlaps removed reconstructs the original text; for
text longer than `chunkSize` the number of chunks is
`ceil((L-O)/(S-O))`; empty text yields zero chunks; non-empty text
shorter than `chunkSize` yields exactly one chunk. -/
theorem chunker_C8 :
    ∀ (S O : Nat) (text : List Char), O < S →
      joinChunks O (splitChunks S O text) = text ∧
      (S < text.length →
        (splitChunks S O text).length =
          (text.length - O + (S - O) - 1) / (S - O)) ∧
      splitChunks S O ([] : List Char) = [] ∧
      (text ≠ [] → text.length < S → splitChunks S O text = [text]) := by
  intro S O text hso
  refine ⟨?_, ?_, splitChunks_nil,
    fun h0 h1 => splitChunks_short hso h0 (le_of_lt h1)⟩
  · by_cases h0 : text = []
    · subst h0
      simp [splitChunks_nil, joinChunks]
    · by_cases h1 : text.length ≤ S
      · rw [splitChunks_short hso h0 h1]
        simp [joinChunks]
      · rw [splitChunks_long hso (by omega)]
        show text.take S ++
          ((splitChunks S O (text.drop (S - O))).map
            (fun x => x.drop O)).flatten = text
        rw [join_drop_splitChunks hso (text.drop (S - O)).length _ le_rfl,
          List.drop_drop, show S - O + O = S from by omega,
          List.take_append_drop]
  · intro hS
    rw [splitChunks_length hso text.length text le_rfl hS,
      show text.length - O + (S - O) - 1 = (text.length - O - 1) + (S - O)
        from by omega,
      Nat.add_div_right _ (by omega)]

/-- Witness for C8 with chunk size 5, overlap 2, on an 8-character text. -/
theorem chunker_C8_witness :
    joinChunks 2 (splitChunks 5 2 ['a', 'b', 'c', 'd', 'e', 'f', 'g', 'h']) =
      ['a', 'b', 'c', 'd', 'e', 'f', 'g', 'h'] ∧
    (splitChunks 5 2 ['a', 'b', 'c', 'd', 'e', 'f', 'g', 'h']).length =
      ((['a', 'b', 'c', 'd', 'e', 'f', 'g', 'h'] : List Char).length -
        2 + (5 - 2) - 1) / (5 - 2) :=
  ⟨(chunker_C8 5 2 _ (by decide)).1, (chunker_C8 5 2 _ (by decide)).2.1 (by decide)⟩

/-! ## `frontend/lib/api.ts` — `resolveBackendBase`

The function reads `process.env.NEXT_PUBLIC_BACKEND_URL` (modelled as an
`Option String`) and `window.location.origin` (modelled as an
`Option String`, `none` when no `window` exists, e.g. during SSR). -/

/-- The two `code` values of the `ApiError`s thrown by
`resolveBackendBase` (`MISSING_ENV_VAR`, `INVALID_BACKEND_URL` — the
latter used by both the non-https and the localhost throw sites). -/
inductive ApiErrorCode where
  | missingEnvVar : ApiErrorCode
  | invalidBackendUrl : ApiErrorCode
deriving DecidableEq, Repr

/-- The regex literal of `/^https:\/\//i`. -/
def httpsPat : List Char := ['h', 't', 't', 'p', 's', ':', '/', '/']

/-- The `localhost` alternative of `/^http:\/\/(localhost|127\.0\.0\.1)/i`. -/
def httpLocalhostPat : List Char :=
  ['h', 't', 't', 'p', ':', '/', '/', 'l', 'o', 'c', 'a', 'l', 'h', 'o', 's', 't']

/-- The `127.0.0.1` alternative of `/^http:\/\/(localhost|127\.0\.0\.1)/i`. -/
def httpLoopbackPat : List Char :=
  ['h', 't', 't', 'p', ':', '/', '/', '1', '2', '7', '.', '0', '.', '0', '.', '1']

/-- A case-insensitive anchored test `/^pat/i.test(s)` for a lowercase
literal pattern: lowercase the subject, then test the prefix. -/
def testCI (pat : List Char) (s : List Char) : Bool :=
  prefixOfCharList pat (s.map jsToLower)

/-- `url.replace(/\/+$/, '')` — drop every trailing slash. -/
def stripTrailingSlashes (cs : List Char) : List Char :=
  (cs.reverse.dropWhile (fun c => c == '/')).reverse

/-- The `isProd` test of `resolveBackendBase`: a `window` exists and its
origin matches `/^https:\/\//i`. -/
def isProdOrigin (windowOrigin : Option String) : Bool :=
  match windowOrigin with
  | none => false
  | some origin => testCI httpsPat origin.data

/-- `resolveBackendBase` (`lib/api.ts` lines 78–114). The trimmed URL is
kept as a `List Char`; the JS falsy test `!url` on the trimmed string is
the emptiness test. -/
def resolveBackendBase (envUrl windowOrigin : Option String) :
    Except ApiErrorCode String :=
  match envUrl with
  | none => .error .missingEnvVar
  | some u =>
    let url := jsTrim u.data
    if url = [] then .error .missingEnvVar
    else
      let isProd := isProdOrigin windowOrigin
      let isLocalLike :=
        testCI httpLocalhostPat url || testCI httpLoopbackPat url
      if isProd && !(testCI httpsPat url) then .error .invalidBackendUrl
      else if isProd && isLocalLike then .error .invalidBackendUrl
      else .ok (String.mk (stripTrailingSlashes url))

theorem prefixOfCharList_cons {p : Char} {ps s : List Char} :
    prefixOfCharList (p :: ps) s = true ↔
      ∃ t, s = p :: t ∧ prefixOfCharList ps t = true := by
  cases s with
  | nil => simp [prefixOfCharList]
  | cons a t =>
    simp only [prefixOfCharList, Bool.and_eq_true, beq_iff_eq]
    constructor
    · rintro ⟨rfl, h⟩
      exact ⟨t, rfl, h⟩
    · rintro ⟨t2, he, h⟩
      injection he with h1 h2
      subst h1
      subst h2
      exact ⟨rfl, h⟩

/-- The localhost test of `resolveBackendBase` can never fire on a URL
that passed the https test: `/^http:\/\/(localhost|127\.0\.0\.1)/i`
requires the fifth character to be `:` where `/^https:\/\//i` requires
`s` — the branch is dead code. -/
theorem not_localLike_of_https {s : List Char}
    (h : prefixOfCharList httpsPat s = true) :
    prefixOfCharList httpLocalhostPat s = false ∧
    prefixOfCharList httpLoopbackPat s = false := by
  simp only [httpsPat] at h
  obtain ⟨s1, hs1, h1⟩ := prefixOfCharList_cons.mp h
  subst hs1
  obtain ⟨s2, hs2, h2⟩ := prefixOfCharList_cons.mp h1
  subst hs2
  obtain ⟨s3, hs3, h3⟩ := prefixOfCharList_cons.mp h2
  subst hs3
  obtain ⟨s4, hs4, h4⟩ := prefixOfCharList_cons.mp h3
  subst hs4
  obtain ⟨s5, hs5, h5⟩ := prefixOfCharList_cons.mp h4
  subst hs5
  constructor <;> simp [httpLocalhostPat, httpLoopbackPat, prefixOfCharList]

/-! ## Claim C10: `resolveBackendBase` -/

/-- C10 counterexample: under an https page origin, the https-scheme URL
`https://localhost:8000/` points at localhost, yet `resolveBackendBase`
accepts it (returning it with the trailing slash stripped) instead of
throwing — the localhost rejection only matches `http://` URLs, which the
https check has already rejected. -/
theorem resolveBackendBase_C10_counterexample :
    resolveBackendBase (some "https://localhost:8000/")
      (some "https://app.example.com") = .ok "https://localhost:8000" ∧
    isProdOrigin (some "https://app.example.com") = true ∧
    prefixOfCharList
      ['h', 't', 't', 'p', 's', ':', '/', '/', 'l', 'o', 'c', 'a', 'l', 'h', 'o', 's', 't']
      ("https://localhost:8000/".data.map jsToLower) = true := by
  refine ⟨by decide, by decide, by decide⟩

/-- C10 (amended): `resolveBackendBase` returns the configured URL
trimmed and stripped of every trailing slash, and throws exactly when
the variable is unset or blank, or — under an https page origin — when
the configured URL does not start (case-insensitively) with `https://`.
A `https://`-scheme URL pointing at localhost/127.0.0.1 is NOT rejected:
the localhost check only matches `http://` URLs, which the https check
already rejected. -/
theorem resolveBackendBase_C10 :
    ∀ (env origin : Option String),
      resolveBackendBase none origin = .error .missingEnvVar ∧
      (∀ u, env = some u → jsTrim u.data = [] →
        resolveBackendBase env origin = .error .missingEnvVar) ∧
      (∀ u, env = some u → jsTrim u.data ≠ [] →
        isProdOrigin origin = true →
        testCI httpsPat (jsTrim u.data) = false →
        resolveBackendBase env origin = .error .invalidBackendUrl) ∧
      (∀ u, env = some u → jsTrim u.data ≠ [] →
        (isProdOrigin origin = false ∨ testCI httpsPat (jsTrim u.data) = true) →
        resolveBackendBase env origin =
          .ok (String.mk (stripTrailingSlashes (jsTrim u.data)))) := by
  intro env origin
  refine ⟨rfl, ?_, ?_, ?_⟩
  · rintro u rfl h
    simp only [resolveBackendBase]
    rw [if_pos h]
  · rintro u rfl h hp ht
    simp only [resolveBackendBase]
    rw [if_neg h, hp, ht]
    rfl
  · rintro u rfl h hor
    simp only [resolveBackendBase]
    rw [if_neg h]
    rcases hor with hp | ht
    · rw [hp]
      rfl
    · have hll := not_localLike_of_https (by simpa [testCI] using ht)
      simp [testCI, ht, hll.1, hll.2] at ht ⊢
      simp [testCI, ht]

/-- Witness for C10: all four behaviours at concrete inputs. -/
theorem resolveBackendBase_C10_witness :
    resolveBackendBase none none = .error .missingEnvVar ∧
    resolveBackendBase (some "   ") none = .error .missingEnvVar ∧
    resolveBackendBase (some "http://x") (some "https://a.example") =
      .error .invalidBackendUrl ∧
    resolveBackendBase (some "http://localhost:8000/") none =
      .ok "http://localhost:8000" :=
  ⟨(resolveBackendBase_C10 none none).1,
    (resolveBackendBase_C10 (some "   ") none).2.1 "   " rfl (by decide),
    (resolveBackendBase_C10 (some "http://x") (some "https://a.example")).2.2.1
      "http://x" rfl (by decide) (by decide) (by decide),
    (resolveBackendBase_C10 (some "http://localhost:8000/") none).2.2.2
      "http://localhost:8000/" rfl (by decide) (Or.inl (by decide))⟩

end RagChatbot
